import Mathlib

/-!
Shallow embedding of src/tools/dynamic_inventory/inventory.c, a C program
that turns a hosts.ini file into an Ansible dynamic-inventory JSON tree
using the jansson library, together with theorems about its behaviour.

Modelling conventions:
* a jansson value is the inductive `Json`; a possibly NULL pointer to a
  jansson value is an `Option Json`;
* a jansson object is an insertion-ordered association list; setting a key
  that already exists replaces its value in place, otherwise the pair is
  appended at the end (`assocSet`, matching json_object_set_new);
* the input file is an `Option (List String)`: `none` models a file that
  fopen cannot open, `some lines` models the file content split into lines
  with the trailing newline already stripped (the C loop strips the
  newline right after getline, before anything else looks at the line);
* one call of strtok_r with delimiter " " is `strtok1`: it skips leading
  spaces, returns the maximal run of non-space characters, and leaves the
  remainder positioned one character past the terminating delimiter (the
  character that the C code overwrites with NUL), so the remainder is
  empty exactly when the C code sees rest equal to the empty string;
* the repeated strtok_r calls of the attribute loop enumerate the
  whitespace-separated tokens of the remainder (`words`).
-/

namespace Inventory

/-- Characters of the current token: everything before the first space
(the strpbrk step inside strtok_r). -/
def takeWord : List Char → List Char
  | [] => []
  | c :: cs => if c = ' ' then [] else c :: takeWord cs

/-- Suffix of the list starting at the first space, empty when there is
no space left. -/
def dropWord : List Char → List Char
  | [] => []
  | c :: cs => if c = ' ' then c :: cs else dropWord cs

/-- Fueled splitting into whitespace-separated tokens; the fuel is an
upper bound on the list length, which keeps the recursion structural. -/
def wordsF : Nat → List Char → List (List Char)
  | 0, _ => []
  | _ + 1, [] => []
  | n + 1, c :: cs =>
      if c = ' ' then wordsF n cs
      else (c :: takeWord cs) :: wordsF n (dropWord cs)

/-- The whitespace-separated tokens of a character list, in order. -/
def words (s : List Char) : List (List Char) := wordsF s.length s

/-- One strtok_r call with delimiter " ": `none` when only spaces remain,
otherwise the token together with the remainder one character past the
delimiter that strtok_r overwrites with NUL. -/
def strtok1 : List Char → Option (List Char × List Char)
  | [] => none
  | c :: cs =>
      if c = ' ' then strtok1 cs
      else some (c :: takeWord cs, (dropWord cs).tail)

/-- Insertion-ordered object update, as json_object_set_new: replace the
value of an existing key in place, otherwise append the new pair. -/
def assocSet {α : Type} : List (String × α) → String → α → List (String × α)
  | [], k, v => [(k, v)]
  | p :: ps, k, v => if p.1 = k then (k, v) :: ps else p :: assocSet ps k v

/-- Object lookup, as json_object_get: first pair with the given key. -/
def assocGet {α : Type} : List (String × α) → String → Option α
  | [], _ => none
  | p :: ps, k => if p.1 = k then some p.2 else assocGet ps k

/-- jansson JSON values, restricted to the shapes this program builds. -/
inductive Json where
  | str : String → Json
  | arr : List Json → Json
  | obj : List (String × Json) → Json

/-- json_object_get on a `Json` value: `none` models a NULL result. -/
def objGet : Json → String → Option Json
  | Json.obj fields, k => assocGet fields k
  | _, _ => none

/-- Drop the leading run of equals signs (strtok with delimiter "="
skips leading delimiters before taking a token). -/
def dropEqRun : List Char → List Char
  | [] => []
  | c :: cs => if c = '=' then dropEqRun cs else c :: cs

/-- Everything before the first equals sign. -/
def takeTillEq : List Char → List Char
  | [] => []
  | c :: cs => if c = '=' then [] else c :: takeTillEq cs

/-- Everything after the first equals sign (strchr followed by moving
one character past it). -/
def afterFirstEq : List Char → List Char
  | [] => []
  | c :: cs => if c = '=' then cs else afterFirstEq cs

/-- Whether the token contains an equals sign (whether strchr finds one). -/
def hasEq : List Char → Bool
  | [] => false
  | c :: cs => if c = '=' then true else hasEq cs

/-- The key-value pair one attribute token produces, or `none` when the
token consists solely of equals signs: in that case strtok on the copied
token returns NULL and json_object_set_new with a NULL key does nothing.
The key is what strtok(copy, "=") returns: the first maximal run of
non-equals characters after skipping leading equals signs.  The value is
everything after the first equals sign when there is one, otherwise the
empty string. -/
def tokEntry (t : List Char) : Option (String × String) :=
  match dropEqRun t with
  | [] => none
  | ks => some (String.mk (takeTillEq ks),
      if hasEq t then String.mk (afterFirstEq t) else "")

/-- The decoded form of one ini line, mirroring the object built by
convert_ini_line: the hostname field is `none` when the line holds only
spaces (strtok_r finds no token, so the NULL hostname is never stored),
and the vars field is `none` when the object carries no vars key at
all (the line had nothing after the first token and its delimiter). -/
structure IniLine where
  hostname : Option String
  vars : Option (List (String × String))

/-- One iteration of the attribute while loop of convert_ini_line. -/
def convStep (acc : List (String × String)) (t : List Char) :
    List (String × String) :=
  match tokEntry t with
  | none => acc
  | some kv => assocSet acc kv.1 kv.2

/-- The vars object built by the attribute loop of convert_ini_line. -/
def buildVars (toks : List (List Char)) : List (String × String) :=
  toks.foldl convStep []

/-- convert_ini_line from inventory.c: split the line on spaces, store
the first token as the hostname, and when the remainder after the first
strtok_r call is nonempty fold every remaining token into a vars object. -/
def convert_ini_line (line : String) : IniLine :=
  match strtok1 line.data with
  | none => { hostname := none, vars := none }
  | some tr =>
      if tr.2 = [] then { hostname := some (String.mk tr.1), vars := none }
      else { hostname := some (String.mk tr.1),
             vars := some (buildVars (words tr.2)) }

/-- The live mutable state of the parse_hosts_ini loop: the hostvars
object inside _meta, the children array of all, the hosts array of
ungrouped, the extra top-level group objects of root in creation order
(each group object stays empty, nothing is ever added to it), and the
groups_flag that records whether a group header was seen. -/
structure PState where
  hostvars : List (String × List (String × String))
  allChildren : List String
  ungroupedHosts : List String
  groups : List String
  groupsFlag : Bool

/-- The default dictionaries parse_hosts_ini creates before reading. -/
def initState : PState :=
  { hostvars := [], allChildren := ["ungrouped"], ungroupedHosts := [],
    groups := [], groupsFlag := false }

/-- Whether a closing bracket occurs in the list. -/
def hasRB : List Char → Bool
  | [] => false
  | c :: cs => if c = ']' then true else hasRB cs

/-- Everything before the first closing bracket. -/
def takeTillRB : List Char → List Char
  | [] => []
  | c :: cs => if c = ']' then [] else c :: takeTillRB cs

/-- Everything before the first colon. -/
def takeTillColon : List Char → List Char
  | [] => []
  | c :: cs => if c = ':' then [] else c :: takeTillColon cs

/-- The group name the header branch of parse_hosts_ini extracts from a
line that starts with an opening bracket: the text after the bracket, cut
at the first closing bracket and then at the first colon; when no closing
bracket exists nothing is cut and the whole remainder of the line is the
name (the colon split only happens inside the branch that found the
closing bracket; in that no-bracket case the C code also reads the
uninitialized sub_group pointer, which is undefined behaviour but at most
influences two printf calls, never the tree). -/
def group_name_of (line : String) : String :=
  if hasRB line.data.tail then
    String.mk (takeTillColon (takeTillRB line.data.tail))
  else String.mk line.data.tail

/-- The three keys root always carries before any group is created; the
header branch looks groups up in root itself, so these names can never
become groups. -/
def isDefaultKey (g : String) : Bool :=
  g == "_meta" || g == "all" || g == "ungrouped"

/-- One iteration of the getline loop of parse_hosts_ini: skip empty
lines; while no group header was seen and the line does not start with an
opening bracket, decode it and record hostname and vars; otherwise, for a
line starting with an opening bracket create the named group on first
sight and append its name to the children of all, and for any other line
only print a diagnostic and change nothing. -/
def pstep (s : PState) (line : String) : PState :=
  if line = "" then s
  else if s.groupsFlag = false ∧ line.data.head? ≠ some '[' then
    { s with
      ungroupedHosts :=
        match (convert_ini_line line).hostname with
        | some h => s.ungroupedHosts ++ [h]
        | none => s.ungroupedHosts,
      hostvars :=
        match (convert_ini_line line).hostname, (convert_ini_line line).vars with
        | some h, some v => assocSet s.hostvars h v
        | _, _ => s.hostvars }
  else if line.data.head? = some '[' then
    if isDefaultKey (group_name_of line) || s.groups.contains (group_name_of line) then
      { s with groupsFlag := true }
    else
      { s with groupsFlag := true,
               groups := s.groups ++ [group_name_of line],
               allChildren := s.allChildren ++ [group_name_of line] }
  else
    { s with groupsFlag := true }

/-- The whole getline loop over the lines of a readable file. -/
def runLines (lines : List String) : PState := lines.foldl pstep initState

/-- A hostvars entry as a JSON object of string values. -/
def varsJson (v : List (String × String)) : Json :=
  Json.obj (v.map (fun p => (p.1, Json.str p.2)))

/-- The root object parse_hosts_ini returns for a readable file: _meta,
all and ungrouped in creation order, followed by one empty object per
declared group in creation order. -/
def materialize (s : PState) : Json :=
  Json.obj
    ([("_meta", Json.obj
        [("hostvars", Json.obj (s.hostvars.map (fun p => (p.1, varsJson p.2))))]),
      ("all", Json.obj [("children", Json.arr (s.allChildren.map Json.str))]),
      ("ungrouped", Json.obj [("hosts", Json.arr (s.ungroupedHosts.map Json.str))])]
     ++ s.groups.map (fun g => (g, Json.obj [])))

/-- parse_hosts_ini from inventory.c: when fopen fails it returns a fresh
empty object (the return site commented as empty object in the source),
otherwise it folds every line through the loop and returns root.  Neither
return site can produce NULL, hence the result is always `some`. -/
def parse_hosts_ini (file : Option (List String)) : Option Json :=
  match file with
  | none => some (Json.obj [])
  | some lines => some (materialize (runLines lines))

/-- find_dict from inventory.c: it allocates a fresh empty object, looks
the key up only to printf the value when it happens to be a string, and
always returns the fresh empty object. -/
def find_dict (root_obj : Json) (keyname : String) : Json :=
  Json.obj []

/-- host from inventory.c: the returned dictionary is whatever find_dict
returns, hence always an empty object. -/
def host (hostname : String) (root_json : Json) : Json :=
  find_dict root_json hostname

/-- The option strings main accepts besides the help flags. -/
def valid_options : List String := ["-l", "-H", "--list", "--host"]

/-- The exit status of main as a function of the argument list (without
the program name) and the hosts.ini content: help and no-argument runs
exit 0, a valid option exits 1 only if parse_hosts_ini returned NULL and
otherwise 0, and an unknown option exits 1. -/
def main_exit (args : List String) (file : Option (List String)) : Nat :=
  match args with
  | [] => 0
  | a1 :: _ =>
      if a1 = "--help" ∨ a1 = "-h" then 0
      else if valid_options.contains a1 then
        match parse_hosts_ini file with
        | none => 1
        | some _ => 0
      else 1

/-- The classification of input lines that the branch structure of the
getline loop induces. -/
inductive LineKind where
  | blank
  | header
  | data
deriving DecidableEq

/-- The line classifier the loop implements: a line is blank exactly when
it is the empty string (no trimming happens), a header exactly when its
very first character is an opening bracket, and data otherwise. -/
def classify (line : String) : LineKind :=
  if line = "" then LineKind.blank
  else if line.data.head? = some '[' then LineKind.header
  else LineKind.data

/-- Spec-side step describing what one ungrouped declaration line does to
the hostvars entry of host `k`: a declaration of `k` that carries a vars
object replaces the entry wholesale, anything else leaves it alone. -/
def declStep (k : String) (acc : Option (List (String × String)))
    (line : String) : Option (List (String × String)) :=
  match (convert_ini_line line).hostname, (convert_ini_line line).vars with
  | some hn, some v => if hn = k then some v else acc
  | _, _ => acc

/-- Spec-side description of the final hostvars entry of host `k`: the
vars object of the last declaration of `k` that carried one. -/
def last_decl_vars (lines : List String) (k : String) :
    Option (List (String × String)) :=
  lines.foldl (declStep k) none

/-- Spec-side step describing the effect of one attribute token on the
lookup of key `k`: the token overrides the current value exactly when it
produces a pair whose key is `k` (last occurrence wins). -/
def lookStep (k : String) (acc : Option String) (t : List Char) :
    Option String :=
  match tokEntry t with
  | none => acc
  | some kv => if kv.1 = k then some kv.2 else acc

/-- The children array of the all entry of a materialized tree. -/
def all_children_list (j : Json) : List Json :=
  match objGet j "all" with
  | some a =>
      match objGet a "children" with
      | some (Json.arr xs) => xs
      | _ => []
  | _ => []

/-- Dropping everything up to the first space never lengthens a list. -/
lemma dropWord_length (cs : List Char) : (dropWord cs).length ≤ cs.length := by
  induction cs with
  | nil => exact Nat.le_refl _
  | cons c cs ih =>
    unfold dropWord
    by_cases h : c = ' '
    · rw [if_pos h]
    · rw [if_neg h]
      exact Nat.le_succ_of_le ih

/-- Any fuel at least the length of the list gives the same tokens. -/
lemma wordsF_fuel : ∀ (n m : Nat) (s : List Char),
    s.length ≤ n → s.length ≤ m → wordsF n s = wordsF m s := by
  intro n
  induction n with
  | zero =>
    intro m s hn _
    have hs : s = [] := List.length_eq_zero.mp (Nat.le_zero.mp hn)
    subst hs
    cases m <;> rfl
  | succ n ih =>
    intro m s hn hm
    cases s with
    | nil => cases m <;> rfl
    | cons c cs =>
      cases m with
      | zero => simp at hm
      | succ m =>
        have hn2 : cs.length ≤ n := by simp only [List.length_cons] at hn; omega
        have hm2 : cs.length ≤ m := by simp only [List.length_cons] at hm; omega
        show wordsF (n + 1) (c :: cs) = wordsF (m + 1) (c :: cs)
        unfold wordsF
        by_cases h : c = ' '
        · rw [if_pos h, if_pos h]
          exact ih m cs hn2 hm2
        · rw [if_neg h, if_neg h]
          have hd : (dropWord cs).length ≤ n := le_trans (dropWord_length cs) hn2
          have hd2 : (dropWord cs).length ≤ m := le_trans (dropWord_length cs) hm2
          rw [ih m (dropWord cs) hd hd2]

/-- A leading space does not change the token list. -/
lemma words_space (cs : List Char) : words (' ' :: cs) = words cs := by
  show wordsF (' ' :: cs).length (' ' :: cs) = words cs
  rw [List.length_cons]
  unfold wordsF
  rw [if_pos rfl]
  rfl

/-- A leading non-space character starts a token. -/
lemma words_char (c : Char) (cs : List Char) (h : ¬ c = ' ') :
    words (c :: cs) = (c :: takeWord cs) :: words (dropWord cs) := by
  show wordsF (c :: cs).length (c :: cs) = _
  rw [List.length_cons]
  unfold wordsF
  rw [if_neg h]
  rw [wordsF_fuel cs.length (dropWord cs).length (dropWord cs)
        (dropWord_length cs) (Nat.le_refl _)]
  rfl

/-- dropWord yields either nothing or a suffix led by a space. -/
lemma dropWord_shape : ∀ cs : List Char,
    dropWord cs = [] ∨ ∃ r, dropWord cs = ' ' :: r := by
  intro cs
  induction cs with
  | nil => left; rfl
  | cons c cs ih =>
    by_cases h : c = ' '
    · right
      exact ⟨cs, by simp [dropWord, h]⟩
    · simpa [dropWord, h] using ih

/-- Dropping the overwritten delimiter does not change the token list. -/
lemma words_dropWord (cs : List Char) :
    words (dropWord cs) = words (dropWord cs).tail := by
  rcases dropWord_shape cs with h | ⟨r, h⟩
  · rw [h]
    rfl
  · rw [h, words_space]
    rfl

/-- When strtok_r finds no token, there are no tokens at all. -/
lemma strtok1_none : ∀ s : List Char, strtok1 s = none → words s = [] := by
  intro s
  induction s with
  | nil => intro _; rfl
  | cons c cs ih =>
    intro h
    by_cases hc : c = ' '
    · subst hc
      rw [words_space]
      apply ih
      simpa [strtok1] using h
    · simp [strtok1, hc] at h

/-- The token strtok_r returns is the head of the token list and the
tokens of the remainder are exactly the tail. -/
lemma strtok1_some : ∀ (s t r : List Char),
    strtok1 s = some (t, r) → words s = t :: words r := by
  intro s
  induction s with
  | nil => intro t r h; simp [strtok1] at h
  | cons c cs ih =>
    intro t r h
    by_cases hc : c = ' '
    · subst hc
      rw [words_space]
      exact ih t r (by simpa [strtok1] using h)
    · rw [words_char c cs hc]
      simp only [strtok1, if_neg hc, Option.some.injEq, Prod.mk.injEq] at h
      obtain ⟨ht, hr⟩ := h
      rw [← ht, ← hr]
      rw [words_dropWord cs]

/-- Lookup after an in-place set: the set key reads back the new value,
every other key is untouched. -/
lemma assocGet_assocSet {α : Type} : ∀ (m : List (String × α)) (k q : String) (v : α),
    assocGet (assocSet m k v) q = if k = q then some v else assocGet m q := by
  intro m k q v
  induction m with
  | nil => simp [assocSet, assocGet]
  | cons p ps ih =>
    by_cases hp : p.1 = k
    · by_cases hq : k = q
      · simp [assocSet, assocGet, hp, hq]
      · have hpq : ¬ p.1 = q := fun e => hq (by rw [← hp, e])
        simp [assocSet, assocGet, hp, hq, hpq]
    · by_cases hq : p.1 = q
      · have hkq : ¬ k = q := fun e => hp (by rw [e, ← hq])
        have hqk : ¬ q = k := fun e => hkq e.symm
        simp [assocSet, assocGet, hp, hq, hkq, hqk]
      · simp [assocSet, assocGet, hp, hq, ih]

/-- Reading one key out of the attribute fold is the last-wins fold of
the per-token entries. -/
lemma assocGet_convFold : ∀ (toks : List (List Char)) (m : List (String × String)) (k : String),
    assocGet (toks.foldl convStep m) k = toks.foldl (lookStep k) (assocGet m k) := by
  intro toks
  induction toks with
  | nil => intro m k; rfl
  | cons t ts ih =>
    intro m k
    show assocGet (ts.foldl convStep (convStep m t)) k
        = ts.foldl (lookStep k) (lookStep k (assocGet m k) t)
    rw [ih]
    have hstep : assocGet (convStep m t) k = lookStep k (assocGet m k) t := by
      unfold convStep lookStep
      cases tokEntry t with
      | none => rfl
      | some kv => exact assocGet_assocSet m kv.1 k kv.2
    rw [hstep]

/-- The data branch of the loop, spelled out. -/
lemma pstep_data (s : PState) (line : String) (h1 : ¬ line = "")
    (h2 : ¬ line.data.head? = some '[') (h3 : s.groupsFlag = false) :
    pstep s line = { s with
      ungroupedHosts :=
        match (convert_ini_line line).hostname with
        | some h => s.ungroupedHosts ++ [h]
        | none => s.ungroupedHosts,
      hostvars :=
        match (convert_ini_line line).hostname, (convert_ini_line line).vars with
        | some h, some v => assocSet s.hostvars h v
        | _, _ => s.hostvars } := by
  unfold pstep
  rw [if_neg h1, if_pos (And.intro h3 h2)]

/-- In the data branch the hostvars object is updated as described and
nothing else about hostvars happens. -/
lemma pstep_data_hostvars (s : PState) (line : String) (h1 : ¬ line = "")
    (h2 : ¬ line.data.head? = some '[') (h3 : s.groupsFlag = false) :
    (pstep s line).hostvars =
      match (convert_ini_line line).hostname, (convert_ini_line line).vars with
      | some h, some v => assocSet s.hostvars h v
      | _, _ => s.hostvars := by
  rw [pstep_data s line h1 h2 h3]

/-- The data branch leaves the groups flag down. -/
lemma pstep_data_groupsFlag (s : PState) (line : String) (h1 : ¬ line = "")
    (h2 : ¬ line.data.head? = some '[') (h3 : s.groupsFlag = false) :
    (pstep s line).groupsFlag = false := by
  rw [pstep_data s line h1 h2 h3]
  exact h3

/-- Folding ungrouped data lines acts on each hostvars entry as the
last-declaration-wins fold. -/
lemma hostvars_foldl : ∀ (lines : List String) (s : PState) (k : String),
    s.groupsFlag = false →
    (∀ l ∈ lines, ¬ l = "" ∧ ¬ l.data.head? = some '[') →
    assocGet (lines.foldl pstep s).hostvars k
      = lines.foldl (declStep k) (assocGet s.hostvars k) := by
  intro lines
  induction lines with
  | nil => intro s k _ _; rfl
  | cons l ls ih =>
    intro s k hflag hall
    obtain ⟨h1, h2⟩ := hall l (List.mem_cons_self l ls)
    have hrest : ∀ x ∈ ls, ¬ x = "" ∧ ¬ x.data.head? = some '[' :=
      fun x hx => hall x (List.mem_cons_of_mem l hx)
    rw [List.foldl_cons, List.foldl_cons]
    rw [ih (pstep s l) k (pstep_data_groupsFlag s l h1 h2 hflag) hrest]
    have hone : assocGet (pstep s l).hostvars k
        = declStep k (assocGet s.hostvars k) l := by
      rw [pstep_data_hostvars s l h1 h2 hflag]
      unfold declStep
      rcases hh : (convert_ini_line l).hostname with _ | hn
      · rcases hv : (convert_ini_line l).vars with _ | v <;> simp [hh, hv]
      · rcases hv : (convert_ini_line l).vars with _ | v
        · simp [hh, hv]
        · simp [hh, hv, assocGet_assocSet]
    rw [hone]

/-- No loop iteration ever removes an element of the children of all. -/
lemma pstep_allChildren_mem (s : PState) (l : String) (x : String)
    (hx : x ∈ s.allChildren) : x ∈ (pstep s l).allChildren := by
  unfold pstep
  split
  · exact hx
  · split
    · exact hx
    · split
      · split
        · exact hx
        · exact List.mem_append_left _ hx
      · exact hx

/-- Membership in the children of all is preserved by the whole loop. -/
lemma foldl_allChildren_mem : ∀ (lines : List String) (s : PState) (x : String),
    x ∈ s.allChildren → x ∈ (lines.foldl pstep s).allChildren := by
  intro lines
  induction lines with
  | nil => intro s x hx; exact hx
  | cons l ls ih =>
    intro s x hx
    exact ih (pstep s l) x (pstep_allChildren_mem s l x hx)

/-- The children array of a materialized tree is the children list of
the state, as strings. -/
lemma all_children_materialize (s : PState) :
    all_children_list (materialize s) = s.allChildren.map Json.str := rfl

/-- Tokens without an equals sign survive dropEqRun unchanged. -/
lemma noEq_dropEqRun : ∀ t : List Char, hasEq t = false → dropEqRun t = t := by
  intro t
  induction t with
  | nil => intro _; rfl
  | cons c cs _ =>
    intro h
    by_cases hc : c = '='
    · simp [hasEq, hc] at h
    · simp [dropEqRun, hc]

/-- Tokens without an equals sign survive takeTillEq unchanged. -/
lemma noEq_takeTillEq : ∀ t : List Char, hasEq t = false → takeTillEq t = t := by
  intro t
  induction t with
  | nil => intro _; rfl
  | cons c cs ih =>
    intro h
    by_cases hc : c = '='
    · simp [hasEq, hc] at h
    · have hcs : hasEq cs = false := by simpa [hasEq, hc] using h
      simp [takeTillEq, hc, ih hcs]

/-- C1: what the code actually produces on the six-line example input.
The spec claim expects webservers.hosts to be the two group hosts,
webservers.vars to hold port, and hostvars to carry web3, but the group
branch of parse_hosts_ini only creates empty group objects and prints
group data lines as not parsed, so the webservers entry stays an empty
object, web2 and web3 appear nowhere, and only web1 (the ungrouped line)
reaches hostvars.  This theorem evaluates the embedded code at exactly
the claimed input and exhibits that tree. -/
theorem c1_code_result :
    parse_hosts_ini (some ["web1 env=prod", "[webservers]", "web2",
        "web3 env=staging", "[webservers:vars]", "port=80"])
      = some (Json.obj
          [("_meta", Json.obj [("hostvars",
              Json.obj [("web1", Json.obj [("env", Json.str "prod")])])]),
           ("all", Json.obj [("children",
              Json.arr [Json.str "ungrouped", Json.str "webservers"])]),
           ("ungrouped", Json.obj [("hosts", Json.arr [Json.str "web1"])]),
           ("webservers", Json.obj [])]) := rfl

/-- C2 counterexample: when the source cannot be opened, parse_hosts_ini
returns a fresh empty object with none of the canonical entries, so the
claim that the result always carries _meta, all and ungrouped fails at
this concrete input. -/
theorem c2_counterexample :
    parse_hosts_ini none = some (Json.obj [])
      ∧ objGet (Json.obj []) "_meta" = none
      ∧ objGet (Json.obj []) "all" = none
      ∧ objGet (Json.obj []) "ungrouped" = none :=
  ⟨rfl, rfl, rfl, rfl⟩

/-- C2 amended: an unopenable source yields a non-null but bare empty
object; the canonically shaped tree is produced only for a readable
source, including the empty one. -/
theorem c2_amended :
    parse_hosts_ini none = some (Json.obj [])
      ∧ parse_hosts_ini (some [])
        = some (Json.obj
            [("_meta", Json.obj [("hostvars", Json.obj [])]),
             ("all", Json.obj [("children", Json.arr [Json.str "ungrouped"])]),
             ("ungrouped", Json.obj [("hosts", Json.arr [])])]) :=
  ⟨rfl, rfl⟩

/-- C3 counterexample: the host web1 is declared twice; the first
declaration sets key a, the second sets key b.  The claim says the final
entry keeps key a (per-key union), but the code replaces the whole entry
on the second declaration, so key a is gone. -/
theorem c3_counterexample :
    (runLines ["web1 a=1", "web1 b=2"]).hostvars = [("web1", [("b", "2")])]
      ∧ assocGet [("b", "2")] "a" = none :=
  ⟨rfl, rfl⟩

/-- C3 amended: for ungrouped data lines, the final hostvars entry of a
host is the whole vars object of its last declaration that carried any
trailing tokens — wholesale replacement, not per-key union — and
declarations without trailing tokens leave the entry unchanged. -/
theorem c3_amended (lines : List String) (h : String)
    (hall : ∀ l ∈ lines, ¬ l = "" ∧ ¬ l.data.head? = some '[') :
    assocGet (runLines lines).hostvars h = last_decl_vars lines h :=
  hostvars_foldl lines initState h rfl hall

/-- C3 witness: the amended theorem applied to the counterexample input. -/
theorem c3_witness :
    assocGet (runLines ["web1 a=1", "web1 b=2"]).hostvars "web1"
      = last_decl_vars ["web1 a=1", "web1 b=2"] "web1" :=
  c3_amended ["web1 a=1", "web1 b=2"] "web1" (by decide)

/-- C4: what the code actually does on a header missing its closing
bracket.  The claim says the line is skipped and no group is created,
but the code takes everything after the opening bracket as a group name,
creates the group and appends it to the children of all (it also reads
the uninitialized sub_group pointer there, which is undefined behaviour
in the C source but can only influence two printf calls). -/
theorem c4_code_result :
    (runLines ["[oops"]).groups = ["oops"]
      ∧ (runLines ["[oops"]).allChildren = ["ungrouped", "oops"] :=
  ⟨rfl, rfl⟩

/-- C5: what host mode actually returns.  The tree parsed from the line
web1 env=prod does carry web1 in hostvars with env set to prod, yet the
host function returns the empty object for web1 all the same, because
find_dict always returns its freshly allocated empty dictionary; so the
claim that known hosts receive their merged variable map fails. -/
theorem c5_code_result :
    host "web1" (materialize (runLines ["web1 env=prod"])) = Json.obj []
      ∧ assocGet (runLines ["web1 env=prod"]).hostvars "web1"
        = some [("env", "prod")] :=
  ⟨rfl, rfl⟩

/-- C6: what the code actually does with a bracketed range in a host
token.  The claim expects three expanded hosts, but the code stores the
literal token as a single host and creates nothing else. -/
theorem c6_code_result :
    (runLines ["db-[a:c].example.com"]).ungroupedHosts = ["db-[a:c].example.com"]
      ∧ (runLines ["db-[a:c].example.com"]).groups = [] :=
  ⟨rfl, rfl⟩

/-- C10: parse_hosts_ini returns a non-null value for every input,
including the unopenable one, where it returns the fresh empty object;
consequently list mode exits 0 for every input, so the failure branch of
main that would exit 1 after a NULL result is unreachable. -/
theorem c10_parse_nonnull :
    (∀ file : Option (List String), (parse_hosts_ini file).isSome = true)
      ∧ (∀ file : Option (List String), main_exit ["-l"] file = 0)
      ∧ parse_hosts_ini none = some (Json.obj []) := by
  refine ⟨?_, ?_, rfl⟩
  · intro file
    cases file <;> rfl
  · intro file
    cases file <;> rfl

/-- C7 counterexample: on the line h followed by the single remaining
token consisting of one equals sign, the decoder produces an empty
attribute object: the token yields no key-value pair at all (strtok on
the copied token returns NULL and the insertion is dropped), while the
claim says every remaining token is mapped to a key-value pair whose
value is everything after the first equals sign. -/
theorem c7_counterexample :
    (convert_ini_line "h =").vars = some [] := rfl

/-- C7 amended: the decoder returns the first whitespace-separated token
as the identifier; each remaining token containing a character other
than the equals sign yields one pair, whose key is the first maximal run
of non-equals characters (leading equals signs skipped) and whose value
is everything after the first equals sign, or the empty string when the
token has no equals sign; a token of only equals signs yields no pair;
duplicate keys within one line resolve to the last occurrence; a line
holding only the identifier yields an empty attribute mapping and no
error. -/
theorem c7_amended :
    (∀ line : String, (convert_ini_line line).hostname
        = ((words line.data).head?).map (fun t => String.mk t))
      ∧ (∀ (line : String) (k : String),
          assocGet (((convert_ini_line line).vars).getD []) k
            = ((words line.data).drop 1).foldl (lookStep k) none)
      ∧ (∀ t : List Char, hasEq t = false → ¬ t = [] →
          tokEntry t = some (String.mk t, ""))
      ∧ (∀ (t : List Char) (kv : String × String), tokEntry t = some kv →
          hasEq t = true → kv.2 = String.mk (afterFirstEq t)) := by
  refine ⟨?_, ?_, ?_, ?_⟩
  · intro line
    rcases h : strtok1 line.data with _ | ⟨t, r⟩
    · rw [strtok1_none line.data h]
      simp [convert_ini_line, h]
    · rw [strtok1_some line.data t r h]
      by_cases hr : r = [] <;> simp [convert_ini_line, h, hr]
  · intro line k
    rcases h : strtok1 line.data with _ | ⟨t, r⟩
    · rw [strtok1_none line.data h]
      simp [convert_ini_line, h, assocGet]
    · rw [strtok1_some line.data t r h]
      by_cases hr : r = []
      · subst hr
        simp [convert_ini_line, h, assocGet]
        rfl
      · simp [convert_ini_line, h, hr, buildVars]
        rw [assocGet_convFold]
        rfl
  · intro t h1 h2
    have hd := noEq_dropEqRun t h1
    have htk := noEq_takeTillEq t h1
    unfold tokEntry
    rw [hd]
    cases t with
    | nil => exact absurd rfl h2
    | cons c cs => simp [htk, h1]
  · intro t kv h he
    unfold tokEntry at h
    rcases hdr : dropEqRun t with _ | ⟨c, cs⟩
    · rw [hdr] at h
      simp at h
    · rw [hdr] at h
      simp [he] at h
      rw [← h]

/-- C7 witness: the amended decoder contract applied to the example
line of the spec and to two concrete tokens. -/
theorem c7_witness :
    (convert_ini_line "web1 env=prod role=app").hostname
        = ((words ("web1 env=prod role=app".data)).head?).map (fun t => String.mk t)
      ∧ assocGet (((convert_ini_line "web1 env=prod role=app").vars).getD []) "role"
        = ((words ("web1 env=prod role=app".data)).drop 1).foldl (lookStep "role") none
      ∧ tokEntry ("role".data) = some (String.mk ("role".data), "")
      ∧ ("env", "prod").2 = String.mk (afterFirstEq ("env=prod".data)) :=
  ⟨c7_amended.1 "web1 env=prod role=app",
   c7_amended.2.1 "web1 env=prod role=app" "role",
   c7_amended.2.2.1 ("role".data) (by decide) (by decide),
   c7_amended.2.2.2 ("env=prod".data) ("env", "prod") (by decide) (by decide)⟩

/-- C8 counterexample: a line of only spaces is not treated as blank and
a header preceded by a space is not treated as a group header — the
parser turns the latter into an ungrouped host named with the bracketed
text, creating no group — contradicting the trimming behaviour the
claim describes. -/
theorem c8_counterexample :
    classify "   " = LineKind.data
      ∧ classify " [x]" = LineKind.data
      ∧ (runLines [" [x]"]).groups = []
      ∧ (runLines [" [x]"]).ungroupedHosts = ["[x]"] :=
  ⟨rfl, rfl, rfl, rfl⟩

/-- C8 amended: a line is blank exactly when it is the empty string (no
trimming), a group header exactly when its very first character is an
opening bracket, and data otherwise; blank lines leave the parser state
untouched. -/
theorem c8_amended : ∀ (s : PState) (line : String),
    (classify line = LineKind.blank ↔ line = "")
      ∧ (classify line = LineKind.header
          ↔ (¬ line = "" ∧ line.data.head? = some '['))
      ∧ (classify line = LineKind.blank → pstep s line = s) := by
  intro s line
  by_cases h1 : line = ""
  · subst h1
    exact ⟨by simp [classify], by simp [classify], fun _ => by simp [pstep]⟩
  · by_cases h2 : line.data.head? = some '['
    · refine ⟨by simp [classify, h1, h2], by simp [classify, h1, h2], ?_⟩
      intro hb
      simp [classify, h1, h2] at hb
    · refine ⟨by simp [classify, h1, h2], by simp [classify, h1, h2], ?_⟩
      intro hb
      simp [classify, h1, h2] at hb

/-- C8 witness: the amended classifier contract applied to the empty
line, with the blank case discharged concretely. -/
theorem c8_witness : pstep initState "" = initState :=
  (c8_amended initState "").2.2 rfl

/-- C9: the children of all contain ungrouped in the tree materialized
from every readable input, and no single parsing step ever removes an
element from the children of all, so the membership is preserved through
the whole build. -/
theorem c9_ungrouped_always :
    (∀ lines : List String,
        Json.str "ungrouped" ∈ all_children_list (materialize (runLines lines)))
      ∧ (∀ (s : PState) (l : String),
          "ungrouped" ∈ s.allChildren → "ungrouped" ∈ (pstep s l).allChildren) := by
  constructor
  · intro lines
    rw [all_children_materialize]
    exact List.mem_map_of_mem Json.str
      (foldl_allChildren_mem lines initState "ungrouped" (by decide))
  · intro s l hs
    exact pstep_allChildren_mem s l "ungrouped" hs

/-- C9 witness: the invariant instantiated at the empty input and at one
concrete preservation step. -/
theorem c9_witness :
    Json.str "ungrouped" ∈ all_children_list (materialize (runLines []))
      ∧ "ungrouped" ∈ (pstep initState "web1").allChildren :=
  ⟨c9_ungrouped_always.1 [],
   c9_ungrouped_always.2 initState "web1" (by decide)⟩

end Inventory
